import Mathlib

/-!
mini-e-learning-platform: progress store, progress calculator and router.

A shallow embedding of `src/app.js` (storage helpers, router, `percent`,
`progressFor`, and the two updaters of `renderCourseDetail`) together with the
properties of the specification that concern them.

Every definition that embeds a function of `app.js` carries the name of that
function.  Host built-ins are modelled after ECMA-262, within these bounds:

* a string is a sequence of Unicode scalar values (no lone surrogates);
* a stored value is one that JSON text can denote; a property read also reaches
  the members inherited from `Object.prototype` and `Array.prototype` (ECMA-262,
  2023 edition, with Annex B), and an updater returns an object of such values;
* a stored text is described by what `JSON.parse` does with it, and
  `JSON.stringify` writes a text that parses back to the value written;
* `localStorage.getItem` and `setItem` do not throw;
* binary64 arithmetic is exact arithmetic followed by a rounding `fl`, which is a
  parameter of `progressFor`.
-/

set_option autoImplicit false

namespace ELearn

/-! ## JavaScript values -/

/-- Values that JSON text can denote.  An object is its list of own properties;
lookup is by key, so the order of the list is not observable by the program.
`num` is a finite number (JSON text cannot denote `NaN` or an infinity; number
literals beyond the double range are outside this model). -/
inductive JSValue where
  | null : JSValue
  | bool (b : Bool) : JSValue
  | num (n : ℚ) : JSValue
  | str (s : String) : JSValue
  | arr (elems : List JSValue) : JSValue
  | obj (props : List (String × JSValue)) : JSValue

/-- Errors a host built-in can throw. -/
inductive JSError where
  | badJSON : JSError
  | typeError : JSError
  | rangeError : JSError
  | uriError : JSError
  deriving DecidableEq, Repr

namespace JSValue

/-- JavaScript `ToBoolean` on a value. -/
def truthy : JSValue → Bool
  | null => false
  | bool b => b
  | num n => decide (n ≠ 0)
  | str s => decide (s ≠ "")
  | arr _ => true
  | obj _ => true

/-- JavaScript `typeof`. -/
def typeof : JSValue → String
  | null => "object"
  | bool _ => "boolean"
  | num _ => "number"
  | str _ => "string"
  | arr _ => "object"
  | obj _ => "object"

end JSValue

/-- What a variable of the program can hold: a value read from parsed JSON or
built by an updater, or a built-in object reached through the prototype chain (a
method of `Object.prototype` or `Array.prototype`, or the prototype itself for
`__proto__`), named by the key that reached it. -/
inductive Value where
  | json (v : JSValue) : Value
  | builtin (name : String) : Value

/-- `ToBoolean` on what a variable holds; functions and prototypes are objects. -/
def Value.truthy : Value → Bool
  | Value.json v => v.truthy
  | Value.builtin _ => true

/-- `ToBoolean` of the result of a field read (`none` is `undefined`). -/
def truthy? : Option JSValue → Bool
  | none => false
  | some v => v.truthy

/-- The own properties of an object. -/
abbrev Props := List (String × JSValue)

/-! ## Property access -/

/-- Own-property lookup in a property list: the first binding of the key. -/
def lookup : Props → String → Option JSValue
  | [], _ => none
  | (k, v) :: rest, key => if k = key then some v else lookup rest key

/-- Property write in a property list: an existing binding is replaced in place,
a new one is appended. -/
def assign : Props → String → JSValue → Props
  | [], key, v => [(key, v)]
  | (k, w) :: rest, key, v =>
      if k = key then (key, v) :: rest else (k, w) :: assign rest key v

/-- The string-keyed members of `Object.prototype` (ECMA-262 20.1.3 and B.2.2).
All are methods except `__proto__`, an accessor whose getter returns the
prototype and whose setter replaces it. -/
def objectPrototypeMembers : List String :=
  ["constructor", "hasOwnProperty", "isPrototypeOf", "propertyIsEnumerable",
   "toLocaleString", "toString", "valueOf", "__proto__", "__defineGetter__",
   "__defineSetter__", "__lookupGetter__", "__lookupSetter__"]

/-- The string-keyed methods of `Array.prototype` (ECMA-262 23.1.3, 2023 edition). -/
def arrayPrototypeMembers : List String :=
  ["at", "concat", "constructor", "copyWithin", "entries", "every", "fill", "filter",
   "find", "findIndex", "findLast", "findLastIndex", "flat", "flatMap", "forEach",
   "includes", "indexOf", "join", "keys", "lastIndexOf", "map", "pop", "push", "reduce",
   "reduceRight", "reverse", "shift", "slice", "some", "sort", "splice", "toLocaleString",
   "toReversed", "toSorted", "toSpliced", "toString", "unshift", "values", "with"]

/-- Value of a decimal digit character. -/
def digitVal (c : Char) : Option Nat :=
  if '0' ≤ c ∧ c ≤ '9' then some (c.toNat - '0'.toNat) else none

/-- Reads a list of decimal digits (most significant first) onto an accumulator. -/
def readDigits : List Char → Nat → Option Nat
  | [], acc => some acc
  | c :: cs, acc =>
      match digitVal c with
      | some d => readDigits cs (10 * acc + d)
      | none => none

/-- An ECMAScript array index: the canonical decimal numeral of an integer below
`2^32 - 1` (no sign, no leading zero). -/
def arrayIndex? (key : String) : Option Nat :=
  match key.toList with
  | [] => none
  | ['0'] => some 0
  | '0' :: _ => none
  | cs =>
      match readDigits cs 0 with
      | some n => if n < 4294967295 then some n else none
      | none => none

/-- Writes `v` at position `i` of an array's elements.  Positions skipped when the
array grows are holes, which `JSON.stringify` writes as `null`. -/
def setIndex : List JSValue → Nat → JSValue → List JSValue
  | [], 0, v => [v]
  | [], i + 1, v => JSValue.null :: setIndex [] i v
  | _ :: rest, 0, v => v :: rest
  | e :: rest, i + 1, v => e :: setIndex rest i v

/-- The value `readProgress` returns: its guard `typeof parsed === 'object' &&
parsed` lets objects and arrays through and nothing else. -/
inductive Table where
  | object (props : Props) : Table
  | array (elems : List JSValue) : Table

/-- The table as a value, for `JSON.stringify`. -/
def Table.toJS : Table → JSValue
  | Table.object props => JSValue.obj props
  | Table.array elems => JSValue.arr elems

/-- The own data entry of a key in a table: a binding of an object, an element of
an array. -/
def Table.entry : Table → String → Option JSValue
  | Table.object props, key => lookup props key
  | Table.array elems, key =>
      match arrayIndex? key with
      | some i => elems.get? i
      | none => none

/-- The read `state[key]` on a table, `none` standing for `undefined`: an own
property when there is one, otherwise the member of the prototype chain under
that name.  An array has its elements and `length` as own properties. -/
def getProp : Table → String → Option Value
  | Table.object props, key =>
      match lookup props key with
      | some v => some (Value.json v)
      | none => if key ∈ objectPrototypeMembers then some (Value.builtin key) else none
  | Table.array elems, key =>
      match arrayIndex? key with
      | some i => (elems.get? i).map Value.json
      | none =>
          if key = "length" then some (Value.json (JSValue.num (elems.length : ℚ)))
          else if key ∈ arrayPrototypeMembers ∨ key ∈ objectPrototypeMembers then
            some (Value.builtin key)
          else none

/-- The effect of `state[key] = next`, for an object `next`, as far as
`JSON.stringify(state)` can see it, which is the only use `setCourseState` makes
of the mutated table.

On an object: an own binding is replaced; without one, the key `__proto__` runs
the setter inherited from `Object.prototype`, which replaces the prototype and
creates no own property; any other key gets a new own binding (the methods of
`Object.prototype` are writable data properties, so they are shadowed).

On an array: an index key sets an element; `length` converts `next` to a number,
which throws a `TypeError` when `next` has an own `toString` (not callable) and
otherwise gives `NaN`, an invalid length, hence a `RangeError`; any other key
creates an expando property or replaces the prototype, which `JSON.stringify`
does not write. -/
def setProp : Table → String → Props → Except JSError Table
  | Table.object props, key, next =>
      if key = "__proto__" ∧ (lookup props key).isNone = true then
        Except.ok (Table.object props)
      else Except.ok (Table.object (assign props key (JSValue.obj next)))
  | Table.array elems, key, next =>
      match arrayIndex? key with
      | some i => Except.ok (Table.array (setIndex elems i (JSValue.obj next)))
      | none =>
          if key = "length" then
            if (lookup next "toString").isSome then Except.error JSError.typeError
            else Except.error JSError.rangeError
          else Except.ok (Table.array elems)

/-- An object literal.  A field whose value is `undefined` reads as `undefined`
and is skipped by `JSON.stringify`, exactly like a missing field, so it is left
out of the property list. -/
def objLit (fields : List (String × Option JSValue)) : Props :=
  fields.filterMap fun kv => kv.2.map fun v => (kv.1, v)

/-- The two fields the program reads from a course state. -/
inductive Field where
  | completedLessons : Field
  | isCompleted : Field
  deriving DecidableEq, Repr

/-- The property name of a field. -/
def Field.name : Field → String
  | Field.completedLessons => "completedLessons"
  | Field.isCompleted => "isCompleted"

/-- The read `prev.completedLessons` or `prev.isCompleted`.  On `null` it throws a
`TypeError`; on an object it is the own binding; arrays, primitives and built-in
objects have no property of either name, own or inherited, so the read is
`undefined`. -/
def readField : Value → Field → Except JSError (Option JSValue)
  | Value.json JSValue.null, _ => Except.error JSError.typeError
  | Value.json (JSValue.obj props), field => Except.ok (lookup props field.name)
  | _, _ => Except.ok none

/-! ## Storage and the JSON codec -/

/-- A string held by `localStorage`, described by what `JSON.parse` does with
it: the empty string, a non-empty text that `JSON.parse` rejects, or a text that
it accepts together with the value it yields. -/
inductive StoredText where
  | empty : StoredText
  | malformed : StoredText
  | json (v : JSValue) : StoredText

/-- The slot of `localStorage` under `STORAGE_KEY`; `none` when there is no
item, in which case `getItem` returns `null`. -/
abbrev LocalStorage := Option StoredText

/-- Model of `JSON.parse`. -/
def JSON.parse : StoredText → Except JSError JSValue
  | StoredText.empty => Except.error JSError.badJSON
  | StoredText.malformed => Except.error JSError.badJSON
  | StoredText.json v => Except.ok v

/-- Model of `JSON.stringify`: the text written for a value is one that
`JSON.parse` reads back as that value. -/
def JSON.stringify (v : JSValue) : StoredText := StoredText.json v

/-- `!raw` for the result of `getItem`: `null` and the empty string are falsy. -/
def rawIsFalsy : Option StoredText → Bool
  | none => true
  | some StoredText.empty => true
  | some _ => false

/-- The parsed value that passed the guard of `readProgress`, as a table.  The
last case is never reached: a value whose `typeof` is `'object'` and which is
truthy is an object or an array. -/
def asTable : JSValue → Table
  | JSValue.obj props => Table.object props
  | JSValue.arr elems => Table.array elems
  | _ => Table.object []

/-- `readProgress` of `app.js`. -/
def readProgress (ls : LocalStorage) : Table :=
  if rawIsFalsy ls then Table.object []
  else
    match ls with
    | none => Table.object []
    | some raw =>
        match JSON.parse raw with
        | Except.ok parsed =>
            if parsed.typeof = "object" ∧ parsed.truthy = true then asTable parsed
            else Table.object []
        | Except.error _ => Table.object []

/-- `writeProgress` of `app.js`: the new content of the slot. -/
def writeProgress (progress : Table) : LocalStorage :=
  some (JSON.stringify progress.toJS)

/-- The default course state `{ completedLessons: [], isCompleted: false }`. -/
def defaultCourseState : JSValue :=
  JSValue.obj [("completedLessons", JSValue.arr []), ("isCompleted", JSValue.bool false)]

/-- `getCourseState` of `app.js`: the loaded table and `state[courseId]`, or the
default when that is `undefined` or falsy (`||`). -/
def getCourseState (ls : LocalStorage) (courseId : String) : Table × Value :=
  let state := readProgress ls
  let courseState :=
    match getProp state courseId with
    | some v => if v.truthy then v else Value.json defaultCourseState
    | none => Value.json defaultCourseState
  (state, courseState)

/-- `setCourseState` of `app.js`.  The result is the value returned and the new
content of the slot; when the updater or the assignment throws, nothing is
written and the error propagates. -/
def setCourseState (ls : LocalStorage) (courseId : String)
    (updater : Value → Except JSError Props) : Except JSError (JSValue × LocalStorage) :=
  let (state, courseState) := getCourseState ls courseId
  match updater courseState with
  | Except.error e => Except.error e
  | Except.ok next =>
      match setProp state courseId next with
      | Except.error e => Except.error e
      | Except.ok state => Except.ok (JSValue.obj next, writeProgress state)

/-! ## The catalog -/

/-- A lesson of the catalog. -/
structure Lesson where
  id : String
  title : String
  deriving DecidableEq, Repr

/-- A course of the catalog. -/
structure Course where
  id : String
  title : String
  description : String
  lessons : List Lesson
  deriving DecidableEq, Repr

/-- The lesson ids of a course, in catalog order (`course.lessons.map((l) => l.id)`). -/
def Course.lessonIds (course : Course) : List String :=
  course.lessons.map fun l => l.id

/-- The course `graphics` of the catalog. -/
def graphics : Course :=
  { id := "graphics"
    title := "Graphics"
    description := "Learn the fundamentals of graphic design: color, typography, and layout."
    lessons :=
      [ ⟨"g-1", "Color Theory Basics"⟩
      , ⟨"g-2", "Typography Principles"⟩
      , ⟨"g-3", "Layout and Composition"⟩
      , ⟨"g-4", "Practical Project: Poster"⟩ ] }

/-- The course `data-analytics` of the catalog. -/
def dataAnalytics : Course :=
  { id := "data-analytics"
    title := "Data Analytics"
    description := "Analyze data using descriptive statistics, visualization, and simple modeling."
    lessons :=
      [ ⟨"d-1", "Intro to Analytics"⟩
      , ⟨"d-2", "Data Cleaning Essentials"⟩
      , ⟨"d-3", "Exploratory Visualization"⟩
      , ⟨"d-4", "Descriptive Statistics"⟩
      , ⟨"d-5", "Mini Case Study"⟩ ] }

/-- The course `writing` of the catalog. -/
def writing : Course :=
  { id := "writing"
    title := "Writing"
    description := "Improve clarity, structure, and style across different writing formats."
    lessons :=
      [ ⟨"w-1", "Clarity and Concision"⟩
      , ⟨"w-2", "Structuring Arguments"⟩
      , ⟨"w-3", "Voice and Style"⟩
      , ⟨"w-4", "Editing Workshop"⟩ ] }

/-- The constant `courses` of `app.js`. -/
def courses : List Course := [graphics, dataAnalytics, writing]

/-! ## `Set` -/

/-- `SameValueZero` between two members of a collection read from parsed JSON:
primitives are compared by value; two arrays or objects at different positions
of a parsed text are always different references. -/
def sameValueZero : JSValue → JSValue → Bool
  | JSValue.null, JSValue.null => true
  | JSValue.bool a, JSValue.bool b => decide (a = b)
  | JSValue.num a, JSValue.num b => decide (a = b)
  | JSValue.str a, JSValue.str b => decide (a = b)
  | _, _ => false

/-- `Set.prototype.has`.  A `Set` is the list of its members in insertion order. -/
def setHas (s : List JSValue) (x : JSValue) : Bool :=
  s.any fun y => sameValueZero y x

/-- `Set.prototype.add`: a member already present is not added again. -/
def setAdd (s : List JSValue) (x : JSValue) : List JSValue :=
  if setHas s x then s else s ++ [x]

/-- `Set.prototype.delete`. -/
def setDelete (s : List JSValue) (x : JSValue) : List JSValue :=
  s.filter fun y => !sameValueZero y x

/-- The members produced by iterating a value, as `new Set(iterable)` does: an
array yields its elements, a string its code points as one-character strings;
other values are not iterable and the constructor throws a `TypeError`. -/
def iterate : JSValue → Except JSError (List JSValue)
  | JSValue.arr elems => Except.ok elems
  | JSValue.str s => Except.ok (s.toList.map fun c => JSValue.str (String.singleton c))
  | _ => Except.error JSError.typeError

/-- `new Set(iterable)`: the members are added one by one. -/
def newSet (iterable : JSValue) : Except JSError (List JSValue) :=
  match iterate iterable with
  | Except.ok members => Except.ok (members.foldl setAdd [])
  | Except.error e => Except.error e

/-- The operand `x || []` for a property read `x`. -/
def orEmptyArray : Option JSValue → JSValue
  | some v => if v.truthy then v else JSValue.arr []
  | none => JSValue.arr []

/-! ## The updaters of `renderCourseDetail` -/

/-- The updater passed to `setCourseState` by the change handler of a lesson
checkbox (`app.js` lines 221-228), for the checkbox of `lessonId` in state
`checked`. -/
def toggleUpdater (course : Course) (lessonId : String) (checked : Bool)
    (prev : Value) : Except JSError Props :=
  match readField prev Field.completedLessons with
  | Except.error e => Except.error e
  | Except.ok completed =>
      match newSet (orEmptyArray completed) with
      | Except.error e => Except.error e
      | Except.ok set =>
          let set := if checked then setAdd set (JSValue.str lessonId)
                     else setDelete set (JSValue.str lessonId)
          let newCompleted := set
          if newCompleted.length ≥ course.lessons.length then
            Except.ok (objLit [("completedLessons", some (JSValue.arr newCompleted)),
                               ("isCompleted", some (JSValue.bool true))])
          else
            match readField prev Field.isCompleted with
            | Except.error e => Except.error e
            | Except.ok isCompletedNow =>
                Except.ok (objLit [("completedLessons", some (JSValue.arr newCompleted)),
                                   ("isCompleted", isCompletedNow)])

/-- The updater passed to `setCourseState` by the click handler of
`completeCourseBtn` (`app.js` lines 236-239). -/
def completeUpdater (course : Course) (_prev : Value) : Except JSError Props :=
  Except.ok (objLit [("completedLessons", some (JSValue.arr (course.lessonIds.map JSValue.str))),
                     ("isCompleted", some (JSValue.bool true))])

/-- The storage effect of the change handler of a lesson checkbox: the call of
`setCourseState`; an exception ends the handler before anything is written. -/
def toggleLesson (ls : LocalStorage) (course : Course) (lessonId : String)
    (checked : Bool) : LocalStorage :=
  match setCourseState ls course.id (toggleUpdater course lessonId checked) with
  | Except.ok (_, ls') => ls'
  | Except.error _ => ls

/-- The storage effect of the click handler of `completeCourseBtn`. -/
def completeCourse (ls : LocalStorage) (course : Course) : LocalStorage :=
  match setCourseState ls course.id (completeUpdater course) with
  | Except.ok (_, ls') => ls'
  | Except.error _ => ls

/-! ## Progress calculator -/

/-- A JavaScript number: a finite value, `NaN`, or one of the two infinities. -/
inductive JSNumber where
  | fin (q : ℚ) : JSNumber
  | nan : JSNumber
  | posInf : JSNumber
  | negInf : JSNumber

/-- The global `isFinite` on a number. -/
def isFinite : JSNumber → Bool
  | JSNumber.fin _ => true
  | _ => false

/-- The global `isNaN` on a number. -/
def isNaN : JSNumber → Bool
  | JSNumber.nan => true
  | _ => false

/-- `Math.round`: the nearest integer, a tie going towards `+∞`. -/
def Math.round : JSNumber → JSNumber
  | JSNumber.fin q => JSNumber.fin (⌊q + 1 / 2⌋ : ℤ)
  | other => other

/-- `Math.min` of two numbers. -/
def Math.min : JSNumber → JSNumber → JSNumber
  | JSNumber.nan, _ => JSNumber.nan
  | _, JSNumber.nan => JSNumber.nan
  | JSNumber.negInf, _ => JSNumber.negInf
  | _, JSNumber.negInf => JSNumber.negInf
  | JSNumber.posInf, b => b
  | a, JSNumber.posInf => a
  | JSNumber.fin a, JSNumber.fin b => JSNumber.fin (Min.min a b)

/-- `Math.max` of two numbers. -/
def Math.max : JSNumber → JSNumber → JSNumber
  | JSNumber.nan, _ => JSNumber.nan
  | _, JSNumber.nan => JSNumber.nan
  | JSNumber.posInf, _ => JSNumber.posInf
  | _, JSNumber.posInf => JSNumber.posInf
  | JSNumber.negInf, b => b
  | a, JSNumber.negInf => a
  | JSNumber.fin a, JSNumber.fin b => JSNumber.fin (Max.max a b)

/-- `percent` of `app.js`. -/
def percent (n : JSNumber) : JSNumber :=
  if (!isFinite n || isNaN n) = true then JSNumber.fin 0
  else Math.max (JSNumber.fin 0) (Math.min (JSNumber.fin 100) (Math.round n))

/-- The object returned by `progressFor`. -/
structure Metrics where
  total : Nat
  done : Nat
  p : JSNumber
  isCompleted : Bool

/-- `progressFor` of `app.js`.  `fl` is the rounding of binary64 arithmetic: the
quotient `done / total` and the product by `100` are each the rounding of the
exact result.  `new Set` throws when the stored `completedLessons` is not
iterable. -/
def progressFor (fl : ℚ → ℚ) (ls : LocalStorage) (course : Course) :
    Except JSError Metrics :=
  let courseState := (getCourseState ls course.id).2
  let total := course.lessons.length
  match readField courseState Field.completedLessons with
  | Except.error e => Except.error e
  | Except.ok completed =>
      match newSet (orEmptyArray completed) with
      | Except.error e => Except.error e
      | Except.ok set =>
          let done := set.length
          let p := if total > 0 then JSNumber.fin (fl (fl ((done : ℚ) / (total : ℚ)) * 100))
                   else JSNumber.fin 0
          match readField courseState Field.isCompleted with
          | Except.error e => Except.error e
          | Except.ok flag =>
              Except.ok { total := total, done := done, p := percent p,
                          isCompleted := truthy? flag }

/-- A rational that binary64 holds exactly: `m / 2 ^ k` with `|m| < 2 ^ 53` and
`k ≤ 1074`. -/
def Binary64Exact (q : ℚ) : Prop :=
  ∃ m : ℤ, ∃ k : ℕ, |m| < 2 ^ 53 ∧ k ≤ 1074 ∧ q = (m : ℚ) / 2 ^ k

/-! ## Router -/

/-- Value of a hexadecimal digit. -/
def hexVal (c : Char) : Option Nat :=
  if '0' ≤ c ∧ c ≤ '9' then some (c.toNat - '0'.toNat)
  else if 'a' ≤ c ∧ c ≤ 'f' then some (c.toNat - 'a'.toNat + 10)
  else if 'A' ≤ c ∧ c ≤ 'F' then some (c.toNat - 'A'.toNat + 10)
  else none

/-- Number of leading one bits of an octet. -/
def leadingOnes (b : Nat) : Nat :=
  if b < 0x80 then 0 else if b < 0xC0 then 1 else if b < 0xE0 then 2
  else if b < 0xF0 then 3 else if b < 0xF8 then 4 else 5

/-- Whether an octet is a UTF-8 continuation byte `10xxxxxx`. -/
def isContinuation (b : Nat) : Bool :=
  decide (0x80 ≤ b ∧ b < 0xC0)

/-- The code point of a two-, three- or four-octet sequence when the sequence is
well-formed UTF-8: continuation bytes in range, no overlong form, no surrogate,
at most `U+10FFFF`. -/
def utf8CodePoint : List Nat → Option Nat
  | [b0, b1] =>
      let cp := (b0 - 0xC0) * 64 + (b1 - 0x80)
      if isContinuation b1 ∧ 0x80 ≤ cp then some cp else none
  | [b0, b1, b2] =>
      let cp := (b0 - 0xE0) * 4096 + (b1 - 0x80) * 64 + (b2 - 0x80)
      if isContinuation b1 ∧ isContinuation b2 ∧ 0x800 ≤ cp ∧ ¬ (0xD800 ≤ cp ∧ cp ≤ 0xDFFF)
      then some cp else none
  | [b0, b1, b2, b3] =>
      let cp := (b0 - 0xF0) * 262144 + (b1 - 0x80) * 4096 + (b2 - 0x80) * 64 + (b3 - 0x80)
      if isContinuation b1 ∧ isContinuation b2 ∧ isContinuation b3 ∧ 0x10000 ≤ cp ∧ cp ≤ 0x10FFFF
      then some cp else none
  | _ => none

/-- The loop of the abstract operation `Decode` of ECMA-262 with an empty
reserved set.  The first argument is `none` between characters and, inside a
multi-octet escape, the number of `%XX` groups still due with the octets read so
far. -/
def decodeLoop : Option (Nat × List Nat) → List Char → Except JSError (List Char)
  | none, [] => Except.ok []
  | some _, [] => Except.error JSError.uriError
  | st, c :: rest =>
      if c = '%' then
        match rest with
        | h1 :: h2 :: rest' =>
            match hexVal h1, hexVal h2 with
            | some hi, some lo =>
                let b := 16 * hi + lo
                match st with
                | none =>
                    if b < 0x80 then
                      match decodeLoop none rest' with
                      | Except.ok out => Except.ok (Char.ofNat b :: out)
                      | Except.error e => Except.error e
                    else if leadingOnes b = 1 ∨ leadingOnes b > 4 then
                      Except.error JSError.uriError
                    else decodeLoop (some (leadingOnes b - 1, [b])) rest'
                | some (due, octets) =>
                    if due ≤ 1 then
                      match utf8CodePoint (octets ++ [b]) with
                      | some cp =>
                          match decodeLoop none rest' with
                          | Except.ok out => Except.ok (Char.ofNat cp :: out)
                          | Except.error e => Except.error e
                      | none => Except.error JSError.uriError
                    else decodeLoop (some (due - 1, octets ++ [b])) rest'
            | _, _ => Except.error JSError.uriError
        | _ => Except.error JSError.uriError
      else
        match st with
        | none =>
            match decodeLoop none rest with
            | Except.ok out => Except.ok (c :: out)
            | Except.error e => Except.error e
        | some _ => Except.error JSError.uriError

/-- Model of `decodeURIComponent`: throws a `URIError` on a malformed escape. -/
def decodeURIComponent (s : String) : Except JSError String :=
  match decodeLoop none s.toList with
  | Except.ok out => Except.ok (String.mk out)
  | Except.error e => Except.error e

/-- The view functions a route can name. -/
inductive Handler where
  | renderHome : Handler
  | renderCourseDetail : Handler
  | renderNotFound : Handler
  deriving DecidableEq, Repr

/-- The object returned by `matchRoute`. -/
structure RouteMatch where
  handler : Handler
  params : List (String × String)
  deriving DecidableEq, Repr

/-- Removes a literal from the front of a character list. -/
def stripLiteral : List Char → List Char → Option (List Char)
  | [], cs => some cs
  | _ :: _, [] => none
  | l :: ls, c :: cs => if l = c then stripLiteral ls cs else none

/-- The capture group of `path.match(/^\/course\/([^\/]+)$/)`: the rest of the
path after `/course/` when it is one or more characters other than `/`. -/
def courseSegment (path : String) : Option String :=
  match stripLiteral "/course/".toList path.toList with
  | some seg => if seg ≠ [] ∧ seg.all (fun c => c ≠ '/') = true then some (String.mk seg) else none
  | none => none

/-- `matchRoute` of `app.js`; `routes['/']` is `renderHome` and
`routes['/course/:id']` is `renderCourseDetail`. -/
def matchRoute (path : String) : Except JSError RouteMatch :=
  if path = "/" then Except.ok { handler := Handler.renderHome, params := [] }
  else
    match courseSegment path with
    | some seg =>
        match decodeURIComponent seg with
        | Except.ok id => Except.ok { handler := Handler.renderCourseDetail, params := [("id", id)] }
        | Except.error e => Except.error e
    | none => Except.ok { handler := Handler.renderNotFound, params := [] }

/-! ## The data model of the specification -/

/-- The record `{ completedLessons, isCompleted }` built by the two updaters and
by the default of `getCourseState`, with lesson ids for members and a boolean
flag. -/
structure CourseProgress where
  completedLessons : List String
  isCompleted : Bool
  deriving DecidableEq, Repr

/-- The own properties of the JavaScript object for a `CourseProgress`, in the
order in which the updaters write them. -/
def CourseProgress.toProps (cp : CourseProgress) : Props :=
  [("completedLessons", JSValue.arr (cp.completedLessons.map JSValue.str)),
   ("isCompleted", JSValue.bool cp.isCompleted)]

/-- The JavaScript object for a `CourseProgress`. -/
def CourseProgress.toJS (cp : CourseProgress) : JSValue :=
  JSValue.obj cp.toProps

/-- A course state `v` is the course progress `cp`: its two fields read as the
members and the flag of `cp` (other fields and the order of fields are free). -/
def Holds (v : Value) (cp : CourseProgress) : Prop :=
  readField v Field.completedLessons
    = Except.ok (some (JSValue.arr (cp.completedLessons.map JSValue.str))) ∧
  readField v Field.isCompleted = Except.ok (some (JSValue.bool cp.isCompleted))

/-- A valid progress table: course ids with their course progress. -/
abbrev ProgressTable := List (String × CourseProgress)

/-- The table object for a progress table. -/
def ProgressTable.toTable (table : ProgressTable) : Table :=
  Table.object (table.map fun kv => (kv.1, kv.2.toJS))

/-- The entry of a course id in a progress table. -/
def ProgressTable.entry : ProgressTable → String → Option CourseProgress
  | [], _ => none
  | (k, cp) :: rest, key => if k = key then some cp else ProgressTable.entry rest key

/-- Adds a lesson id to a list of distinct lesson ids, as `Set.prototype.add`
does for a set of strings. -/
def addId (ids : List String) (x : String) : List String :=
  if x ∈ ids then ids else ids ++ [x]

/-- The distinct lesson ids of a list in order of first occurrence: the members
of `new Set(ids)`. -/
def distinctIds (ids : List String) : List String :=
  ids.foldl addId []

/-- The course progress the toggle updater computes from a course progress. -/
def toggled (course : Course) (lessonId : String) (checked : Bool)
    (cp : CourseProgress) : CourseProgress :=
  let members :=
    if checked then addId (distinctIds cp.completedLessons) lessonId
    else (distinctIds cp.completedLessons).filter fun y => y ≠ lessonId
  { completedLessons := members
    isCompleted := if members.length ≥ course.lessons.length then true else cp.isCompleted }

/-- A change event of a lesson checkbox: the course on screen, the lesson id of
the checkbox and its new state. -/
structure ToggleEvent where
  course : Course
  lessonId : String
  checked : Bool

/-- The storage after a sequence of lesson-checkbox change events, each handled
to completion before the next (no reset in between). -/
def runToggles (ls : LocalStorage) (events : List ToggleEvent) : LocalStorage :=
  events.foldl (fun slot e => toggleLesson slot e.course e.lessonId e.checked) ls

/-- An updater that records what it was given: the object `{ seen: prev }` for a
JSON value `prev`, and `{}` for a built-in object. -/
def echo : Value → Props
  | Value.json v => [("seen", v)]
  | Value.builtin _ => []

/-- The frame property of `setCourseState` for a slot content, a course id and a
total updater, with `p` read as the entry of the course id in the loaded table,
or the default when there is no entry. -/
def SetCourseStateFrame (ls : LocalStorage) (courseId : String) (f : Value → Props) : Prop :=
  ∃ ls' : LocalStorage,
    setCourseState ls courseId (fun p => Except.ok (f p))
      = Except.ok
          (JSValue.obj (f (Value.json
            (((readProgress ls).entry courseId).getD defaultCourseState))), ls') ∧
    ∀ key, (readProgress ls').entry key
      = if key = courseId then
          some (JSValue.obj (f (Value.json
            (((readProgress ls).entry courseId).getD defaultCourseState))))
        else (readProgress ls).entry key

end ELearn

namespace ELearn

/-! ## Property lists -/

theorem lookup_assign_self (props : Props) (key : String) (v : JSValue) :
    lookup (assign props key v) key = some v := by
  induction props with
  | nil => simp [assign, lookup]
  | cons kv rest ih =>
      obtain ⟨k, w⟩ := kv
      by_cases h : k = key
      · simp [assign, lookup, h]
      · simp [assign, lookup, h, ih]

theorem lookup_assign_other (props : Props) (key other : String)
    (v : JSValue) (h : other ≠ key) :
    lookup (assign props key v) other = lookup props other := by
  induction props with
  | nil => simp [assign, lookup, Ne.symm h]
  | cons kv rest ih =>
      obtain ⟨k, w⟩ := kv
      by_cases hk : k = key
      · subst hk
        simp [assign, lookup, Ne.symm h]
      · by_cases ho : k = other
        · subst ho
          simp [assign, lookup, hk]
        · simp [assign, lookup, hk, ho, ih]

theorem lookup_table (table : ProgressTable) (key : String) :
    lookup (table.map fun kv => (kv.1, kv.2.toJS)) key
      = (ProgressTable.entry table key).map CourseProgress.toJS := by
  induction table with
  | nil => rfl
  | cons kv rest ih =>
      obtain ⟨k, cp⟩ := kv
      by_cases h : k = key
      · simp [lookup, ProgressTable.entry, h]
      · simp [lookup, ProgressTable.entry, h, ih]

/-- A write on an object table, read back under the key written: the new value,
unless the key is `__proto__` and the object has no own binding of it. -/
theorem setProp_object_self (props : Props) (key : String) (next : Props)
    (h : key ≠ "__proto__" ∨ (lookup props key).isSome = true) :
    ∃ props', setProp (Table.object props) key next = Except.ok (Table.object props') ∧
      lookup props' key = some (JSValue.obj next) := by
  refine ⟨assign props key (JSValue.obj next), ?_, lookup_assign_self _ _ _⟩
  have hcond : ¬ (key = "__proto__" ∧ (lookup props key).isNone = true) := by
    rintro ⟨hk, hnone⟩
    rcases h with h | h
    · exact h hk
    · cases hl : lookup props key with
      | none => simp [hl] at h
      | some v => simp [hl] at hnone
  simp only [setProp]
  rw [if_neg hcond]

/-- A write on an object table leaves the own binding of every other key as it was. -/
theorem setProp_object_other (props : Props) (key : String) (next : Props) :
    ∃ props', setProp (Table.object props) key next = Except.ok (Table.object props') ∧
      ∀ other, other ≠ key → lookup props' other = lookup props other := by
  by_cases hcond : key = "__proto__" ∧ (lookup props key).isNone = true
  · exact ⟨props, by simp only [setProp]; rw [if_pos hcond], fun _ _ => rfl⟩
  · exact ⟨assign props key (JSValue.obj next), by simp only [setProp]; rw [if_neg hcond],
      fun other ho => lookup_assign_other props key other _ ho⟩

/-! ## Storage -/

theorem readProgress_obj (props : Props) :
    readProgress (some (StoredText.json (JSValue.obj props))) = Table.object props := by
  simp [readProgress, rawIsFalsy, JSON.parse, JSValue.typeof, JSValue.truthy, asTable]

theorem readProgress_arr (elems : List JSValue) :
    readProgress (some (StoredText.json (JSValue.arr elems))) = Table.array elems := by
  simp [readProgress, rawIsFalsy, JSON.parse, JSValue.typeof, JSValue.truthy, asTable]

/-- The last case of `asTable` is not reached by `readProgress`: a value that passes
the guard is an object or an array. -/
theorem guard_passes (parsed : JSValue)
    (h : parsed.typeof = "object" ∧ parsed.truthy = true) :
    (∃ props, parsed = JSValue.obj props) ∨ (∃ elems, parsed = JSValue.arr elems) := by
  cases parsed with
  | null => simp [JSValue.truthy] at h
  | bool b => simp [JSValue.typeof] at h
  | num n => simp [JSValue.typeof] at h
  | str t => simp [JSValue.typeof] at h
  | arr elems => exact Or.inr ⟨elems, rfl⟩
  | obj props => exact Or.inl ⟨props, rfl⟩

/-- Whatever the slot holds, `readProgress` returns an object unless the slot holds the
JSON text of an array. -/
theorem readProgress_table (ls : LocalStorage)
    (h : ∀ elems, ls ≠ some (StoredText.json (JSValue.arr elems))) :
    ∃ props, readProgress ls = Table.object props := by
  cases ls with
  | none => exact ⟨[], rfl⟩
  | some raw =>
      cases raw with
      | empty => exact ⟨[], rfl⟩
      | malformed => exact ⟨[], rfl⟩
      | json v =>
          cases v with
          | null => exact ⟨[], by simp [readProgress, rawIsFalsy, JSON.parse, JSValue.truthy]⟩
          | bool b =>
              exact ⟨[], by simp [readProgress, rawIsFalsy, JSON.parse, JSValue.typeof]⟩
          | num n =>
              exact ⟨[], by simp [readProgress, rawIsFalsy, JSON.parse, JSValue.typeof]⟩
          | str t =>
              exact ⟨[], by simp [readProgress, rawIsFalsy, JSON.parse, JSValue.typeof]⟩
          | arr elems => exact absurd rfl (h elems)
          | obj props => exact ⟨props, readProgress_obj props⟩

theorem readProgress_writeProgress_object (props : Props) :
    readProgress (writeProgress (Table.object props)) = Table.object props := by
  simp [writeProgress, JSON.stringify, Table.toJS, readProgress_obj]

/-! ## Sets of lesson ids -/

theorem setHas_str (ids : List String) (x : String) :
    setHas (ids.map JSValue.str) (JSValue.str x) = decide (x ∈ ids) := by
  induction ids with
  | nil => simp [setHas]
  | cons y rest ih =>
      simp only [setHas, List.map_cons, List.any_cons] at ih ⊢
      rw [ih]
      by_cases h : y = x
      · simp [sameValueZero, h]
      · have h' : ¬ x = y := fun e => h e.symm
        simp [sameValueZero, h, h']

theorem setAdd_str (ids : List String) (x : String) :
    setAdd (ids.map JSValue.str) (JSValue.str x) = (addId ids x).map JSValue.str := by
  unfold setAdd addId
  rw [setHas_str]
  by_cases h : x ∈ ids <;> simp [h]

theorem sameValueZero_str (a b : String) :
    sameValueZero (JSValue.str a) (JSValue.str b) = decide (a = b) := rfl

theorem setDelete_str (ids : List String) (x : String) :
    setDelete (ids.map JSValue.str) (JSValue.str x)
      = (ids.filter fun y => y ≠ x).map JSValue.str := by
  unfold setDelete
  induction ids with
  | nil => rfl
  | cons y rest ih =>
      simp only [List.map_cons, List.filter_cons, sameValueZero_str, ih]
      by_cases h : y = x <;> simp [h]

theorem foldl_setAdd_str (ids acc : List String) :
    (ids.map JSValue.str).foldl setAdd (acc.map JSValue.str)
      = (ids.foldl addId acc).map JSValue.str := by
  induction ids generalizing acc with
  | nil => rfl
  | cons y rest ih =>
      simp only [List.map_cons, List.foldl_cons]
      rw [setAdd_str, ih]

theorem newSet_str (ids : List String) :
    newSet (JSValue.arr (ids.map JSValue.str))
      = Except.ok ((distinctIds ids).map JSValue.str) := by
  have h := foldl_setAdd_str ids []
  simp only [List.map_nil] at h
  simp [newSet, iterate, distinctIds, h]

theorem mem_addId (ids : List String) (x y : String) :
    y ∈ addId ids x ↔ y ∈ ids ∨ y = x := by
  unfold addId
  by_cases h : x ∈ ids
  · simp only [h, if_true]
    constructor
    · exact Or.inl
    · rintro (hy | rfl)
      · exact hy
      · exact h
  · simp [h]

theorem nodup_addId (ids : List String) (x : String) (h : ids.Nodup) :
    (addId ids x).Nodup := by
  unfold addId
  by_cases hx : x ∈ ids
  · simpa [hx] using h
  · simp only [hx, if_false]
    rw [List.nodup_append]
    refine ⟨h, List.nodup_singleton x, ?_⟩
    intro a ha hb
    rw [List.mem_singleton] at hb
    exact hx (hb ▸ ha)

theorem mem_foldl_addId (ids acc : List String) (y : String) :
    y ∈ ids.foldl addId acc ↔ y ∈ acc ∨ y ∈ ids := by
  induction ids generalizing acc with
  | nil => simp
  | cons x rest ih =>
      simp only [List.foldl_cons, List.mem_cons]
      rw [ih, mem_addId]
      tauto

theorem nodup_foldl_addId (ids acc : List String) (h : acc.Nodup) :
    (ids.foldl addId acc).Nodup := by
  induction ids generalizing acc with
  | nil => simpa using h
  | cons x rest ih =>
      simp only [List.foldl_cons]
      exact ih _ (nodup_addId acc x h)

theorem mem_distinctIds (ids : List String) (y : String) :
    y ∈ distinctIds ids ↔ y ∈ ids := by
  simp [distinctIds, mem_foldl_addId]

theorem nodup_distinctIds (ids : List String) : (distinctIds ids).Nodup :=
  nodup_foldl_addId ids [] List.nodup_nil

theorem length_distinctIds (ids : List String) :
    (distinctIds ids).length = ids.toFinset.card := by
  rw [← List.toFinset_card_of_nodup (nodup_distinctIds ids)]
  congr 1
  ext y
  simp [mem_distinctIds]

theorem foldl_addId_of_nodup (ids acc : List String) (h : (acc ++ ids).Nodup) :
    ids.foldl addId acc = acc ++ ids := by
  induction ids generalizing acc with
  | nil => simp
  | cons x rest ih =>
      have hx : x ∉ acc := by
        intro hmem
        rw [List.nodup_append] at h
        exact h.2.2 hmem (List.mem_cons_self x rest)
      have hadd : addId acc x = acc ++ [x] := by simp [addId, hx]
      simp only [List.foldl_cons, hadd]
      rw [ih (acc ++ [x]) (by simpa using h)]
      simp

theorem distinctIds_of_nodup (ids : List String) (h : ids.Nodup) :
    distinctIds ids = ids := by
  simpa [distinctIds] using foldl_addId_of_nodup ids [] (by simpa using h)

/-! ## The toggle updater on course progress -/

theorem orEmptyArray_arr (elems : List JSValue) :
    orEmptyArray (some (JSValue.arr elems)) = JSValue.arr elems := by
  simp [orEmptyArray, JSValue.truthy]

theorem holds_toJS (cp : CourseProgress) : Holds (Value.json cp.toJS) cp := by
  constructor <;>
    simp [CourseProgress.toJS, CourseProgress.toProps, readField, Field.name, lookup]

theorem holds_default : Holds (Value.json defaultCourseState) ⟨[], false⟩ := by
  constructor <;> simp [defaultCourseState, readField, Field.name, lookup]

theorem holds_truthy (v : Value) (cp : CourseProgress) (h : Holds v cp) :
    v.truthy = true := by
  cases v with
  | builtin name => rfl
  | json w =>
      cases w with
      | obj props => rfl
      | arr elems => simp [Holds, readField] at h
      | null => simp [Holds, readField] at h
      | bool b => simp [Holds, readField] at h
      | num n => simp [Holds, readField] at h
      | str t => simp [Holds, readField] at h

theorem toggle_result (n : Nat) (members : List String) (flag : Bool) :
    (if members.length ≥ n then
        (Except.ok (objLit [("completedLessons", some (JSValue.arr (members.map JSValue.str))),
                            ("isCompleted", some (JSValue.bool true))]) : Except JSError Props)
      else
        Except.ok (objLit [("completedLessons", some (JSValue.arr (members.map JSValue.str))),
                           ("isCompleted", some (JSValue.bool flag))]))
      = Except.ok (CourseProgress.toProps
          { completedLessons := members
            isCompleted := if members.length ≥ n then true else flag }) := by
  by_cases hn : members.length ≥ n
  · simp [hn, objLit, CourseProgress.toProps]
  · simp [hn, objLit, CourseProgress.toProps]

/-- On a stored course progress the toggle updater returns, and what it returns is
the course progress `toggled`. -/
theorem toggleUpdater_holds (course : Course) (lessonId : String) (checked : Bool)
    (prev : Value) (cp : CourseProgress) (h : Holds prev cp) :
    toggleUpdater course lessonId checked prev
      = Except.ok (toggled course lessonId checked cp).toProps := by
  obtain ⟨hl, hc⟩ := h
  unfold toggleUpdater
  rw [hl]
  simp only [orEmptyArray_arr, newSet_str, hc]
  cases checked with
  | true =>
      simp only [if_true, setAdd_str, List.length_map]
      exact toggle_result _ _ _
  | false =>
      simp only [Bool.false_eq_true, if_false, setDelete_str, List.length_map]
      exact toggle_result _ _ _

theorem toggled_isCompleted (course : Course) (lessonId : String) (checked : Bool)
    (cp : CourseProgress) (h : cp.isCompleted = true) :
    (toggled course lessonId checked cp).isCompleted = true := by
  simp [toggled, h]

theorem toggled_nodup (course : Course) (lessonId : String) (checked : Bool)
    (cp : CourseProgress) : (toggled course lessonId checked cp).completedLessons.Nodup := by
  cases checked with
  | true => simpa [toggled] using nodup_addId _ lessonId (nodup_distinctIds _)
  | false => simpa [toggled] using (nodup_distinctIds cp.completedLessons).filter _

theorem toggled_subset (course : Course) (lessonId : String) (checked : Bool)
    (cp : CourseProgress) (ids : List String) (hcp : ∀ x ∈ cp.completedLessons, x ∈ ids)
    (hid : lessonId ∈ ids) :
    ∀ x ∈ (toggled course lessonId checked cp).completedLessons, x ∈ ids := by
  intro x hx
  cases checked with
  | true =>
      simp only [toggled, if_true] at hx
      rcases (mem_addId _ _ _).1 hx with h | h
      · exact hcp x ((mem_distinctIds _ _).1 h)
      · exact h ▸ hid
  | false =>
      simp only [toggled, Bool.false_eq_true, if_false] at hx
      exact hcp x ((mem_distinctIds _ _).1 (List.mem_filter.1 hx).1)

/-- A list of distinct ids drawn from `ids` and at least as long as `ids` holds every
member of `ids`. -/
theorem covers_of_length_ge (members ids : List String) (hnodup : members.Nodup)
    (hsub : ∀ x ∈ members, x ∈ ids) (hlen : ids.length ≤ members.length) :
    ∀ x ∈ ids, x ∈ members := by
  have hsubset : members.toFinset ⊆ ids.toFinset := by
    intro x hx
    exact List.mem_toFinset.2 (hsub x (List.mem_toFinset.1 hx))
  have hcard : ids.toFinset.card ≤ members.toFinset.card := by
    rw [List.toFinset_card_of_nodup hnodup]
    exact le_trans (List.toFinset_card_le ids) hlen
  have heq := Finset.eq_of_subset_of_card_le hsubset hcard
  intro x hx
  have : x ∈ ids.toFinset := List.mem_toFinset.2 hx
  rw [← heq] at this
  exact List.mem_toFinset.1 this

/-! ## Lesson toggles through `setCourseState` -/

theorem setCourseState_ok (ls : LocalStorage) (courseId : String)
    (updater : Value → Except JSError Props) (next : Props) (state' : Table)
    (h : updater (getCourseState ls courseId).2 = Except.ok next)
    (hset : setProp (readProgress ls) courseId next = Except.ok state') :
    setCourseState ls courseId updater
      = Except.ok (JSValue.obj next, writeProgress state') := by
  show (match updater (getCourseState ls courseId).2 with
        | Except.error e => Except.error e
        | Except.ok next =>
            match setProp (readProgress ls) courseId next with
            | Except.error e => Except.error e
            | Except.ok state => Except.ok (JSValue.obj next, writeProgress state)) = _
  rw [h]
  simp only [hset]

theorem setCourseState_error (ls : LocalStorage) (courseId : String)
    (updater : Value → Except JSError Props) (e : JSError)
    (h : updater (getCourseState ls courseId).2 = Except.error e) :
    setCourseState ls courseId updater = Except.error e := by
  show (match updater (getCourseState ls courseId).2 with
        | Except.error e => Except.error e
        | Except.ok next =>
            match setProp (readProgress ls) courseId next with
            | Except.error e => Except.error e
            | Except.ok state => Except.ok (JSValue.obj next, writeProgress state)) = _
  rw [h]

theorem getCourseState_own (props : Props) (courseId : String) (prev : JSValue)
    (hentry : lookup props courseId = some prev) (htruthy : prev.truthy = true) :
    (getCourseState (some (StoredText.json (JSValue.obj props))) courseId).2
      = Value.json prev := by
  simp [getCourseState, readProgress_obj, getProp, hentry, Value.truthy, htruthy]

theorem toggleLesson_obj (props : Props) (course : Course)
    (lessonId : String) (checked : Bool) :
    toggleLesson (some (StoredText.json (JSValue.obj props))) course lessonId checked
        = some (StoredText.json (JSValue.obj props)) ∨
    ∃ next props',
      toggleUpdater course lessonId checked
          (getCourseState (some (StoredText.json (JSValue.obj props))) course.id).2
        = Except.ok next ∧
      setProp (Table.object props) course.id next = Except.ok (Table.object props') ∧
      toggleLesson (some (StoredText.json (JSValue.obj props))) course lessonId checked
        = some (StoredText.json (JSValue.obj props')) := by
  cases hup : toggleUpdater course lessonId checked
      (getCourseState (some (StoredText.json (JSValue.obj props))) course.id).2 with
  | error e =>
      left
      unfold toggleLesson
      rw [setCourseState_error _ _ _ e hup]
  | ok next =>
      right
      obtain ⟨props', hset, -⟩ := setProp_object_other props course.id next
      refine ⟨next, props', rfl, hset, ?_⟩
      unfold toggleLesson
      rw [setCourseState_ok _ _ _ next (Table.object props') hup
        (by rw [readProgress_obj]; exact hset)]
      rfl

/-- One lesson toggle keeps a completed entry completed. -/
theorem toggleLesson_keeps_completed (courseId : String) (props : Props)
    (prev : JSValue) (cp : CourseProgress) (hentry : lookup props courseId = some prev)
    (hprev : Holds (Value.json prev) cp) (hdone : cp.isCompleted = true) (e : ToggleEvent) :
    ∃ props' prev' cp',
      toggleLesson (some (StoredText.json (JSValue.obj props))) e.course e.lessonId e.checked
        = some (StoredText.json (JSValue.obj props')) ∧
      lookup props' courseId = some prev' ∧ Holds (Value.json prev') cp' ∧
      cp'.isCompleted = true := by
  rcases toggleLesson_obj props e.course e.lessonId e.checked with
    h | ⟨next, props', hnext, hset, h⟩
  · exact ⟨props, prev, cp, h, hentry, hprev, hdone⟩
  · by_cases hc : e.course.id = courseId
    · have hstate := getCourseState_own props courseId prev hentry
        (holds_truthy (Value.json prev) cp hprev)
      rw [hc, hstate, toggleUpdater_holds e.course e.lessonId e.checked _ cp hprev] at hnext
      have hnext' : (toggled e.course e.lessonId e.checked cp).toProps = next := by
        injection hnext
      obtain ⟨props2, hset2, hlook2⟩ := setProp_object_self props courseId next
        (Or.inr (by simp [hentry]))
      rw [hc, hset2] at hset
      have hprops : props2 = props' := by
        injection hset with hset
        injection hset
      refine ⟨props', JSValue.obj next, toggled e.course e.lessonId e.checked cp, h, ?_, ?_, ?_⟩
      · rw [← hprops]
        exact hlook2
      · rw [← hnext']
        exact holds_toJS _
      · exact toggled_isCompleted _ _ _ cp hdone
    · obtain ⟨props2, hset2, hlook2⟩ := setProp_object_other props e.course.id next
      rw [hset2] at hset
      have hprops : props2 = props' := by
        injection hset with hset
        injection hset
      refine ⟨props', prev, cp, h, ?_, hprev, hdone⟩
      rw [← hprops, hlook2 courseId (fun heq => hc heq.symm)]
      exact hentry

theorem runToggles_keeps_completed (courseId : String) (events : List ToggleEvent) :
    ∀ (props : Props) (prev : JSValue) (cp : CourseProgress),
      lookup props courseId = some prev → Holds (Value.json prev) cp →
      cp.isCompleted = true →
      ∃ props' prev' cp',
        runToggles (some (StoredText.json (JSValue.obj props))) events
          = some (StoredText.json (JSValue.obj props')) ∧
        lookup props' courseId = some prev' ∧ Holds (Value.json prev') cp' ∧
        cp'.isCompleted = true := by
  induction events with
  | nil =>
      intro props prev cp hentry hprev hdone
      exact ⟨props, prev, cp, rfl, hentry, hprev, hdone⟩
  | cons e rest ih =>
      intro props prev cp hentry hprev hdone
      obtain ⟨props1, prev1, cp1, hstep, hentry1, hprev1, hdone1⟩ :=
        toggleLesson_keeps_completed courseId props prev cp hentry hprev hdone e
      obtain ⟨props2, prev2, cp2, hrun, hentry2, hprev2, hdone2⟩ :=
        ih props1 prev1 cp1 hentry1 hprev1 hdone1
      refine ⟨props2, prev2, cp2, ?_, hentry2, hprev2, hdone2⟩
      simp only [runToggles, List.foldl_cons] at hrun ⊢
      rw [hstep]
      exact hrun

/-! ## Claims on lesson toggles -/

/-- C1: monotonic completion.  On a stored course progress whose flag is `true`, the
toggle updater of any course, for any lesson id and either checkbox state,
returns a course progress whose flag is `true`; and when such an entry is stored
for a course id, after any finite sequence of lesson toggles (on any courses)
the entry stored for that course id is a course progress whose flag is `true`. -/
theorem monotonic_completion (cp : CourseProgress) (hdone : cp.isCompleted = true) :
    (∀ (course : Course) (lessonId : String) (checked : Bool) (prev : Value),
      Holds prev cp →
      ∃ cp' : CourseProgress,
        toggleUpdater course lessonId checked prev = Except.ok cp'.toProps ∧
        cp'.isCompleted = true) ∧
    (∀ (courseId : String) (props : Props) (prev : JSValue) (events : List ToggleEvent),
      lookup props courseId = some prev → Holds (Value.json prev) cp →
      ∃ (entry : JSValue) (cp' : CourseProgress),
        getProp (readProgress (runToggles (some (StoredText.json (JSValue.obj props))) events))
          courseId = some (Value.json entry) ∧
        Holds (Value.json entry) cp' ∧ cp'.isCompleted = true) := by
  constructor
  · intro course lessonId checked prev hprev
    exact ⟨toggled course lessonId checked cp,
      toggleUpdater_holds course lessonId checked prev cp hprev,
      toggled_isCompleted course lessonId checked cp hdone⟩
  · intro courseId props prev events hentry hprev
    obtain ⟨props', prev', cp', hrun, hentry', hprev', hdone'⟩ :=
      runToggles_keeps_completed courseId events props prev cp hentry hprev hdone
    refine ⟨prev', cp', ?_, hprev', hdone'⟩
    rw [hrun, readProgress_obj]
    simp [getProp, hentry']

/-- Instance of C1: `graphics` fully completed, then `g-1` unchecked, and a run of
three toggles on two courses. -/
theorem monotonic_completion_witness :
    (CourseProgress.mk ["g-1", "g-2", "g-3", "g-4"] true).isCompleted = true ∧
    (∃ cp' : CourseProgress,
      toggleUpdater graphics "g-1" false
          (Value.json (CourseProgress.mk ["g-1", "g-2", "g-3", "g-4"] true).toJS)
        = Except.ok cp'.toProps ∧
      cp'.isCompleted = true) ∧
    (∃ (entry : JSValue) (cp' : CourseProgress),
      getProp (readProgress (runToggles
          (some (StoredText.json (JSValue.obj
            [("graphics", (CourseProgress.mk ["g-1", "g-2", "g-3", "g-4"] true).toJS)])))
          [⟨graphics, "g-1", false⟩, ⟨graphics, "g-2", false⟩, ⟨writing, "w-1", true⟩]))
        "graphics" = some (Value.json entry) ∧
      Holds (Value.json entry) cp' ∧ cp'.isCompleted = true) :=
  ⟨rfl,
   (monotonic_completion ⟨["g-1", "g-2", "g-3", "g-4"], true⟩ rfl).1 graphics "g-1" false _
     (holds_toJS _),
   (monotonic_completion ⟨["g-1", "g-2", "g-3", "g-4"], true⟩ rfl).2 "graphics" _ _ _ rfl
     (holds_toJS _)⟩

/-- C3 as stated fails.  For `graphics` (four lessons) and a stored progress holding
four ids that are not lessons of the course, flag `false`, checking `g-1` returns
five members and the flag `true`, while `g-2` is a lesson of the course and is not
among the members. -/
theorem toggle_completes_on_stale_ids :
    toggleUpdater graphics "g-1" true
        (Value.json (CourseProgress.mk ["x-1", "x-2", "x-3", "x-4"] false).toJS)
      = Except.ok (CourseProgress.mk ["x-1", "x-2", "x-3", "x-4", "g-1"] true).toProps ∧
    "g-2" ∈ graphics.lessonIds ∧
    "g-2" ∉ (CourseProgress.mk ["x-1", "x-2", "x-3", "x-4", "g-1"] true).completedLessons := by
  refine ⟨?_, ?_, ?_⟩
  · rw [toggleUpdater_holds graphics "g-1" true _ _ (holds_toJS _)]
    rfl
  · decide
  · decide

/-- C3, amended.  For a stored course progress with flag `false` whose members are
all lesson ids of the course, and the checkbox of a lesson of the course, the
toggle updater returns a course progress, and if its flag is `true` then every
lesson id of the course is among its members. -/
theorem toggle_completion_covers_course (course : Course) (lessonId : String)
    (checked : Bool) (prev : Value) (cp : CourseProgress) (hprev : Holds prev cp)
    (hflag : cp.isCompleted = false)
    (hmembers : ∀ x ∈ cp.completedLessons, x ∈ course.lessonIds)
    (hlesson : lessonId ∈ course.lessonIds) :
    ∃ cp' : CourseProgress,
      toggleUpdater course lessonId checked prev = Except.ok cp'.toProps ∧
      (cp'.isCompleted = true → ∀ id ∈ course.lessonIds, id ∈ cp'.completedLessons) := by
  refine ⟨toggled course lessonId checked cp,
    toggleUpdater_holds course lessonId checked prev cp hprev, ?_⟩
  intro hnow
  have hlen : course.lessonIds.length
      ≤ (toggled course lessonId checked cp).completedLessons.length := by
    by_contra hlt
    have hlt' : ¬ (toggled course lessonId checked cp).completedLessons.length
        ≥ course.lessons.length := by
      simpa [Course.lessonIds] using hlt
    have : (toggled course lessonId checked cp).isCompleted = cp.isCompleted := by
      unfold toggled at hlt' ⊢
      simp only [] at hlt' ⊢
      rw [if_neg hlt']
    rw [this, hflag] at hnow
    exact Bool.noConfusion hnow
  exact covers_of_length_ge _ _ (toggled_nodup course lessonId checked cp)
    (toggled_subset course lessonId checked cp _ hmembers hlesson) hlen

/-- Instance of the amended C3: three lessons of `graphics` stored, `g-1` checked. -/
theorem toggle_completion_covers_course_witness :
    Holds (Value.json (CourseProgress.mk ["g-2", "g-3", "g-4"] false).toJS)
      ⟨["g-2", "g-3", "g-4"], false⟩ ∧
    ∃ cp' : CourseProgress,
      toggleUpdater graphics "g-1" true
          (Value.json (CourseProgress.mk ["g-2", "g-3", "g-4"] false).toJS)
        = Except.ok cp'.toProps ∧
      (cp'.isCompleted = true → ∀ id ∈ graphics.lessonIds, id ∈ cp'.completedLessons) :=
  ⟨holds_toJS _,
   toggle_completion_covers_course graphics "g-1" true _ ⟨["g-2", "g-3", "g-4"], false⟩
     (holds_toJS _) rfl (by decide) (by decide)⟩

/-! ## The progress calculator -/

theorem round_int (k : ℤ) : Math.round (JSNumber.fin k) = JSNumber.fin k := by
  have h : ⌊(k : ℚ) + 1 / 2⌋ = k := by
    rw [Int.floor_eq_iff]
    constructor
    · linarith
    · linarith
  simp only [Math.round, h]

/-- `percent` returns an integer between 0 and 100 for every number. -/
theorem percent_range (n : JSNumber) :
    ∃ k : ℤ, percent n = JSNumber.fin k ∧ 0 ≤ k ∧ k ≤ 100 := by
  cases n with
  | nan => exact ⟨0, by simp [percent, isFinite, isNaN], le_refl 0, by norm_num⟩
  | posInf => exact ⟨0, by simp [percent, isFinite, isNaN], le_refl 0, by norm_num⟩
  | negInf => exact ⟨0, by simp [percent, isFinite, isNaN], le_refl 0, by norm_num⟩
  | fin q =>
      refine ⟨max 0 (min 100 ⌊q + 1 / 2⌋), ?_, le_max_left _ _, ?_⟩
      · simp [percent, isFinite, isNaN, Math.round, Math.min, Math.max]
      · exact max_le (by norm_num) (min_le_left _ _)

theorem percent_int (k : ℤ) (h0 : 0 ≤ k) (h100 : k ≤ 100) :
    percent (JSNumber.fin k) = JSNumber.fin k := by
  have hq0 : (0 : ℚ) ≤ (k : ℚ) := by exact_mod_cast h0
  have hq100 : (k : ℚ) ≤ 100 := by exact_mod_cast h100
  simp only [percent, isFinite, isNaN, round_int, Math.min, Math.max]
  simp [min_eq_right hq100, max_eq_right hq0]

theorem binary64Exact_int (k : ℤ) (h : |k| < 2 ^ 53) : Binary64Exact (k : ℚ) :=
  ⟨k, 0, h, by norm_num, by simp⟩

/-- The percentage when the quotient and the product are exact in binary64. -/
theorem percent_exact (fl : ℚ → ℚ) (hfl : ∀ q, Binary64Exact q → fl q = q) (q : ℚ) (k : ℤ)
    (hq : Binary64Exact q) (hk : q * 100 = k) (h0 : 0 ≤ k) (h100 : k ≤ 100) :
    percent (JSNumber.fin (fl (fl q * 100))) = JSNumber.fin k := by
  have habs : |k| < 2 ^ 53 := by
    rw [abs_of_nonneg h0]
    exact lt_of_le_of_lt h100 (by norm_num)
  rw [hfl q hq, hk, hfl _ (binary64Exact_int k habs)]
  exact percent_int k h0 h100

/-- On a stored course progress `progressFor` returns, with the distinct members
counted and the flag passed through. -/
theorem progressFor_holds (fl : ℚ → ℚ) (ls : LocalStorage) (course : Course)
    (cp : CourseProgress) (h : Holds (getCourseState ls course.id).2 cp) :
    progressFor fl ls course
      = Except.ok
          { total := course.lessons.length
            done := (distinctIds cp.completedLessons).length
            p := percent
              (if course.lessons.length > 0 then
                JSNumber.fin (fl (fl ((((distinctIds cp.completedLessons).length : ℕ) : ℚ)
                  / ((course.lessons.length : ℕ) : ℚ)) * 100))
               else JSNumber.fin 0)
            isCompleted := cp.isCompleted } := by
  obtain ⟨hl, hc⟩ := h
  unfold progressFor
  simp only [hl, hc, orEmptyArray_arr, newSet_str, List.length_map, truthy?, JSValue.truthy]

/-! ## Claims on the progress store -/

/-- Fail-open load on every content other than the JSON text of an array: no item,
the empty string, text that is not JSON, and JSON `null`, booleans, numbers and
strings all load as the empty table. -/
theorem readProgress_fail_open :
    readProgress none = Table.object [] ∧
    readProgress (some StoredText.empty) = Table.object [] ∧
    readProgress (some StoredText.malformed) = Table.object [] ∧
    readProgress (some (StoredText.json JSValue.null)) = Table.object [] ∧
    (∀ b, readProgress (some (StoredText.json (JSValue.bool b))) = Table.object []) ∧
    (∀ n, readProgress (some (StoredText.json (JSValue.num n))) = Table.object []) ∧
    (∀ t, readProgress (some (StoredText.json (JSValue.str t))) = Table.object []) := by
  refine ⟨rfl, rfl, rfl, ?_, ?_, ?_, ?_⟩
  · simp [readProgress, rawIsFalsy, JSON.parse, JSValue.truthy]
  · intro b
    simp [readProgress, rawIsFalsy, JSON.parse, JSValue.typeof]
  · intro n
    simp [readProgress, rawIsFalsy, JSON.parse, JSValue.typeof]
  · intro t
    simp [readProgress, rawIsFalsy, JSON.parse, JSValue.typeof]

/-- C5, at the failing input: when the slot holds the JSON text `[]`, `readProgress`
returns the parsed array and not the empty table `{}`; a lesson toggle on that
content then writes `[]` back, so the update is lost. -/
theorem readProgress_array_content :
    readProgress (some (StoredText.json (JSValue.arr []))) = Table.array [] ∧
    readProgress (some (StoredText.json (JSValue.arr []))) ≠ Table.object [] ∧
    toggleLesson (some (StoredText.json (JSValue.arr []))) graphics "g-1" true
      = some (StoredText.json (JSValue.arr [])) := by
  refine ⟨readProgress_arr [], ?_, ?_⟩
  · rw [readProgress_arr]
    intro h
    cases h
  · rfl

/-- C9: persist round trip.  For every valid progress table, `writeProgress`
followed by `readProgress` yields the table again: the loaded table has an entry
exactly for the course ids of the table, and reading a course id of the table
gives its entry (its members and its flag). -/
theorem persist_round_trip (table : ProgressTable) :
    readProgress (writeProgress table.toTable) = table.toTable ∧
    (∀ courseId, (readProgress (writeProgress table.toTable)).entry courseId
      = (table.entry courseId).map CourseProgress.toJS) ∧
    (∀ courseId cp, table.entry courseId = some cp →
      getProp (readProgress (writeProgress table.toTable)) courseId
        = some (Value.json cp.toJS)) := by
  have h : readProgress (writeProgress table.toTable) = table.toTable := by
    simp [ProgressTable.toTable, readProgress_writeProgress_object]
  refine ⟨h, ?_, ?_⟩
  · intro courseId
    rw [h]
    simp [ProgressTable.toTable, Table.entry, lookup_table]
  · intro courseId cp hcp
    rw [h]
    simp [ProgressTable.toTable, getProp, lookup_table, hcp]

/-- C4 as stated fails, in four ways.  With `{"graphics": null}` in the slot the
entry is present and `null`, yet the updater receives the default.  With `[]` in
the slot the write does not reach the stored text.  With `{}` in the slot and the
key `__proto__` the assignment replaces the prototype and nothing is stored.
With `{}` in the slot and the key `toString` the updater receives the inherited
method and not the default. -/
theorem setCourseState_frame_fails :
    ¬ SetCourseStateFrame
        (some (StoredText.json (JSValue.obj [("graphics", JSValue.null)]))) "graphics" echo ∧
    ¬ SetCourseStateFrame (some (StoredText.json (JSValue.arr []))) "graphics" echo ∧
    ¬ SetCourseStateFrame (some (StoredText.json (JSValue.obj []))) "__proto__"
        (fun _ => (CourseProgress.mk [] true).toProps) ∧
    ¬ SetCourseStateFrame (some (StoredText.json (JSValue.obj []))) "toString" echo := by
  refine ⟨?_, ?_, ?_, ?_⟩
  · rintro ⟨ls', h, -⟩
    have hcode : setCourseState
        (some (StoredText.json (JSValue.obj [("graphics", JSValue.null)]))) "graphics"
        (fun p => Except.ok (echo p))
        = Except.ok (JSValue.obj [("seen", defaultCourseState)],
            some (StoredText.json (JSValue.obj
              [("graphics", JSValue.obj [("seen", defaultCourseState)])]))) := by rfl
    rw [hcode] at h
    simp [readProgress_obj, Table.entry, lookup, echo, defaultCourseState] at h
  · rintro ⟨ls', h, hframe⟩
    have hcode : setCourseState (some (StoredText.json (JSValue.arr []))) "graphics"
        (fun p => Except.ok (echo p))
        = Except.ok (JSValue.obj [("seen", defaultCourseState)],
            some (StoredText.json (JSValue.arr []))) := by rfl
    have hindex : arrayIndex? "graphics" = none := by rfl
    rw [hcode] at h
    have hls : some (StoredText.json (JSValue.arr [])) = ls' := by
      injection h with h
      injection h
    have h2 := hframe "graphics"
    rw [← hls] at h2
    simp [readProgress_arr, Table.entry, hindex] at h2
  · rintro ⟨ls', h, hframe⟩
    have hcode : setCourseState (some (StoredText.json (JSValue.obj []))) "__proto__"
        (fun _ => Except.ok (CourseProgress.mk [] true).toProps)
        = Except.ok ((CourseProgress.mk [] true).toJS,
            some (StoredText.json (JSValue.obj []))) := by rfl
    rw [hcode] at h
    have hls : some (StoredText.json (JSValue.obj [])) = ls' := by
      injection h with h
      injection h
    have h2 := hframe "__proto__"
    rw [← hls] at h2
    simp [readProgress_obj, Table.entry, lookup] at h2
  · rintro ⟨ls', h, -⟩
    have hcode : setCourseState (some (StoredText.json (JSValue.obj []))) "toString"
        (fun p => Except.ok (echo p))
        = Except.ok (JSValue.obj [],
            some (StoredText.json (JSValue.obj [("toString", JSValue.obj [])]))) := by rfl
    rw [hcode] at h
    simp [readProgress_obj, Table.entry, lookup, echo] at h

/-- C4, amended.  When the slot does not hold the JSON text of an array and the
course id is not the name of a member of `Object.prototype`, `setCourseState` with
a total updater `f` returns `f p`, where `p` is the entry of the course id in the
loaded table when it is present and truthy and the default otherwise; the table
loaded afterwards maps the course id to `f p` and every other key to what it had
before. -/
theorem setCourseState_frame (ls : LocalStorage) (courseId : String) (f : Value → Props)
    (h : ∀ elems, ls ≠ some (StoredText.json (JSValue.arr elems)))
    (hkey : courseId ∉ objectPrototypeMembers) :
    (getCourseState ls courseId).2
        = (match (readProgress ls).entry courseId with
           | some v => if v.truthy then Value.json v else Value.json defaultCourseState
           | none => Value.json defaultCourseState) ∧
    ∃ ls' : LocalStorage,
      setCourseState ls courseId (fun p => Except.ok (f p))
        = Except.ok (JSValue.obj (f (getCourseState ls courseId).2), ls') ∧
      ∀ key, (readProgress ls').entry key
        = if key = courseId then some (JSValue.obj (f (getCourseState ls courseId).2))
          else (readProgress ls).entry key := by
  obtain ⟨props, hprops⟩ := readProgress_table ls h
  have hproto : courseId ≠ "__proto__" := by
    intro heq
    apply hkey
    rw [heq]
    decide
  constructor
  · cases hl : lookup props courseId with
    | none => simp [getCourseState, hprops, getProp, Table.entry, hl, hkey]
    | some v => simp [getCourseState, hprops, getProp, Table.entry, hl, Value.truthy]
  · obtain ⟨props', hset, hself⟩ := setProp_object_self props courseId
      (f (getCourseState ls courseId).2) (Or.inl hproto)
    obtain ⟨props2, hset2, hother⟩ := setProp_object_other props courseId
      (f (getCourseState ls courseId).2)
    have hsame : props2 = props' := by
      rw [hset] at hset2
      injection hset2 with hset2
      injection hset2 with hset2
      exact hset2.symm
    refine ⟨writeProgress (Table.object props'), ?_, ?_⟩
    · exact setCourseState_ok ls courseId _ _ _ rfl (by rw [hprops]; exact hset)
    · intro key
      rw [readProgress_writeProgress_object, hprops]
      by_cases hk : key = courseId
      · subst hk
        simp [Table.entry, hself]
      · simp only [Table.entry, hk, if_false]
        rw [← hsame]
        exact hother key hk

/-- Instance of the amended C4: two courses stored, the course id `graphics`, and the
updater `echo`, which returns what it was given.  The entry of `graphics` becomes
the record of its prior entry and the entry of `writing` stays. -/
theorem setCourseState_frame_witness :
    (∀ elems, (some (StoredText.json (JSValue.obj
        [("graphics", (CourseProgress.mk ["g-1"] false).toJS),
         ("writing", (CourseProgress.mk ["w-1", "w-2"] false).toJS)])) : LocalStorage)
      ≠ some (StoredText.json (JSValue.arr elems))) ∧
    "graphics" ∉ objectPrototypeMembers ∧
    ∃ ls' : LocalStorage,
      setCourseState
          (some (StoredText.json (JSValue.obj
            [("graphics", (CourseProgress.mk ["g-1"] false).toJS),
             ("writing", (CourseProgress.mk ["w-1", "w-2"] false).toJS)])))
          "graphics" (fun p => Except.ok (echo p))
        = Except.ok (JSValue.obj [("seen", (CourseProgress.mk ["g-1"] false).toJS)], ls') ∧
      (readProgress ls').entry "graphics"
        = some (JSValue.obj [("seen", (CourseProgress.mk ["g-1"] false).toJS)]) ∧
      (readProgress ls').entry "writing"
        = some (CourseProgress.mk ["w-1", "w-2"] false).toJS := by
  refine ⟨fun _ h => (by cases h), (by decide), ?_⟩
  obtain ⟨-, ls', hret, hframe⟩ := setCourseState_frame
    (some (StoredText.json (JSValue.obj
      [("graphics", (CourseProgress.mk ["g-1"] false).toJS),
       ("writing", (CourseProgress.mk ["w-1", "w-2"] false).toJS)])))
    "graphics" echo (fun _ h => (by cases h)) (by decide)
  refine ⟨ls', hret, ?_, ?_⟩
  · rw [hframe "graphics"]
    rfl
  · rw [hframe "writing"]
    rfl

/-! ## Claims on the progress calculator -/

/-- C2 as stated fails.  With `{"graphics": {completedLessons: ["zzz"], isCompleted:
false}}` stored, `progressFor` reports `done = 1`, while no lesson id of `graphics`
occurs among the stored members. -/
theorem done_counts_stale_ids :
    ∃ m : Metrics,
      progressFor id
          (some (StoredText.json (JSValue.obj
            [("graphics", (CourseProgress.mk ["zzz"] false).toJS)]))) graphics
        = Except.ok m ∧
      m.done = 1 ∧
      (["zzz"].toFinset ∩ graphics.lessonIds.toFinset).card = 0 := by
  refine ⟨_, progressFor_holds id _ graphics ⟨["zzz"], false⟩ (holds_toJS _), ?_, ?_⟩
  · rfl
  · decide

/-- C2, amended.  For a stored course progress of the course, the `done` returned by
`progressFor` is the number of distinct members of `completedLessons`, whether or
not they are lesson ids of the course, so duplicates do not increase it; when
every member is a lesson id of the course it is the number of distinct lesson ids
of the course that occur in `completedLessons`. -/
theorem done_is_distinct_count (fl : ℚ → ℚ) (ls : LocalStorage) (course : Course)
    (cp : CourseProgress) (h : Holds (getCourseState ls course.id).2 cp) :
    ∃ m : Metrics,
      progressFor fl ls course = Except.ok m ∧
      m.done = cp.completedLessons.toFinset.card ∧
      ((∀ x ∈ cp.completedLessons, x ∈ course.lessonIds) →
        m.done = (cp.completedLessons.toFinset ∩ course.lessonIds.toFinset).card) := by
  refine ⟨_, progressFor_holds fl ls course cp h, length_distinctIds _, ?_⟩
  intro hsub
  have hinter : cp.completedLessons.toFinset ∩ course.lessonIds.toFinset
      = cp.completedLessons.toFinset := by
    apply Finset.inter_eq_left.2
    intro x hx
    exact List.mem_toFinset.2 (hsub x (List.mem_toFinset.1 hx))
  rw [hinter]
  exact length_distinctIds _

/-- Instance of the amended C2: `g-1` stored twice for `graphics`. -/
theorem done_is_distinct_count_witness :
    Holds (getCourseState
        (some (StoredText.json (JSValue.obj
          [("graphics", (CourseProgress.mk ["g-1", "g-2", "g-1"] false).toJS)])))
        graphics.id).2 ⟨["g-1", "g-2", "g-1"], false⟩ ∧
    ∃ m : Metrics,
      progressFor id
          (some (StoredText.json (JSValue.obj
            [("graphics", (CourseProgress.mk ["g-1", "g-2", "g-1"] false).toJS)]))) graphics
        = Except.ok m ∧
      m.done = ["g-1", "g-2", "g-1"].toFinset.card ∧
      ((∀ x ∈ ["g-1", "g-2", "g-1"], x ∈ graphics.lessonIds) →
        m.done = (["g-1", "g-2", "g-1"].toFinset ∩ graphics.lessonIds.toFinset).card) :=
  ⟨holds_toJS _,
   done_is_distinct_count id _ graphics ⟨["g-1", "g-2", "g-1"], false⟩ (holds_toJS _)⟩

/-- C8: percent bounds.  `percent` maps every number, `NaN` and the infinities
included, to an integer between 0 and 100; and for every course and every stored
course progress of it (any members, so any `done`, also above `total`),
`progressFor` returns metrics whose percentage is an integer between 0 and 100,
and 0 when the course has no lessons. -/
theorem percent_bounds (fl : ℚ → ℚ) (ls : LocalStorage) (course : Course)
    (cp : CourseProgress) (h : Holds (getCourseState ls course.id).2 cp) :
    (∀ n : JSNumber, ∃ k : ℤ, percent n = JSNumber.fin k ∧ 0 ≤ k ∧ k ≤ 100) ∧
    ∃ (m : Metrics) (k : ℤ),
      progressFor fl ls course = Except.ok m ∧
      m.total = course.lessons.length ∧
      m.p = JSNumber.fin k ∧ 0 ≤ k ∧ k ≤ 100 ∧
      (course.lessons.length = 0 → k = 0) := by
  refine ⟨percent_range, ?_⟩
  by_cases hlen : course.lessons.length = 0
  · refine ⟨_, 0, progressFor_holds fl ls course cp h, rfl, ?_, le_refl 0, by norm_num,
      fun _ => rfl⟩
    simp only [hlen, gt_iff_lt, lt_irrefl, if_false]
    exact percent_int 0 (le_refl 0) (by norm_num)
  · obtain ⟨k, hk, h0, h100⟩ := percent_range
      (if course.lessons.length > 0 then
        JSNumber.fin (fl (fl ((((distinctIds cp.completedLessons).length : ℕ) : ℚ)
          / ((course.lessons.length : ℕ) : ℚ)) * 100))
       else JSNumber.fin 0)
    exact ⟨_, k, progressFor_holds fl ls course cp h, rfl, hk, h0, h100,
      fun h' => absurd h' hlen⟩

/-- Instance of C8: six stored members for the four lessons of `graphics`. -/
theorem percent_bounds_witness :
    Holds (getCourseState
        (some (StoredText.json (JSValue.obj
          [("graphics", (CourseProgress.mk ["a", "b", "c", "d", "e", "f"] false).toJS)])))
        graphics.id).2 ⟨["a", "b", "c", "d", "e", "f"], false⟩ ∧
    ∃ (m : Metrics) (k : ℤ),
      progressFor id
          (some (StoredText.json (JSValue.obj
            [("graphics", (CourseProgress.mk ["a", "b", "c", "d", "e", "f"] false).toJS)])))
          graphics = Except.ok m ∧
      m.total = graphics.lessons.length ∧
      m.p = JSNumber.fin k ∧ 0 ≤ k ∧ k ≤ 100 ∧
      (graphics.lessons.length = 0 → k = 0) :=
  ⟨holds_toJS _,
   (percent_bounds id
      (some (StoredText.json (JSValue.obj
        [("graphics", (CourseProgress.mk ["a", "b", "c", "d", "e", "f"] false).toJS)])))
      graphics ⟨["a", "b", "c", "d", "e", "f"], false⟩ (holds_toJS _)).2⟩

/-! ## Marking a course complete -/

theorem completeUpdater_eq (course : Course) (prev : Value) :
    completeUpdater course prev
      = Except.ok (CourseProgress.mk course.lessonIds true).toProps := rfl

theorem completeCourse_table (ls : LocalStorage) (course : Course)
    (h : ∀ elems, ls ≠ some (StoredText.json (JSValue.arr elems)))
    (hid : course.id ≠ "__proto__") :
    ∃ props,
      completeCourse ls course = some (StoredText.json (JSValue.obj props)) ∧
      lookup props course.id = some (CourseProgress.mk course.lessonIds true).toJS := by
  obtain ⟨props, hprops⟩ := readProgress_table ls h
  obtain ⟨props', hset, hself⟩ := setProp_object_self props course.id
    (CourseProgress.mk course.lessonIds true).toProps (Or.inl hid)
  refine ⟨props', ?_, hself⟩
  unfold completeCourse
  rw [setCourseState_ok ls course.id (completeUpdater course) _ (Table.object props')
    (completeUpdater_eq course _) (by rw [hprops]; exact hset)]
  rfl

/-- C10, at the failing input: when the slot holds the JSON text `[]`, the click
handler of `completeCourseBtn` on `graphics` leaves `[]` in the slot, and
`progressFor` then reports four lessons, none done, not completed. -/
theorem completeCourse_array_content (fl : ℚ → ℚ) :
    completeCourse (some (StoredText.json (JSValue.arr []))) graphics
      = some (StoredText.json (JSValue.arr [])) ∧
    ∃ m : Metrics,
      progressFor fl (completeCourse (some (StoredText.json (JSValue.arr []))) graphics)
          graphics = Except.ok m ∧
      m.total = 4 ∧ m.done = 0 ∧ m.isCompleted = false := by
  have hslot : completeCourse (some (StoredText.json (JSValue.arr []))) graphics
      = some (StoredText.json (JSValue.arr [])) := by rfl
  refine ⟨hslot, ?_⟩
  rw [hslot]
  exact ⟨_, progressFor_holds fl _ graphics ⟨[], false⟩ holds_default, rfl, rfl, rfl⟩

/-- Mark-course-complete on a slot that loads as an object.  With binary64 rounding
`fl` (exact on the values binary64 holds), for every course whose lesson ids are
pairwise distinct and whose id is not `__proto__`, and every slot content that is
not the JSON text of an array: after the click handler of `completeCourseBtn` the
entry stored for the course is exactly the lesson ids of the course with flag
`true`, and `progressFor` returns `done = total`, flag `true`, and percentage 100
when `total > 0`.  Scenario on `graphics` from an empty slot: checking `g-1` and
`g-2` gives total 4, done 2, 50 percent, not completed; marking the course
complete gives total 4, done 4, 100 percent, completed, all four ids stored;
unchecking `g-1` gives completed, done 3, 75 percent. -/
theorem mark_course_complete (fl : ℚ → ℚ) (hfl : ∀ q, Binary64Exact q → fl q = q) :
    (∀ (course : Course) (ls : LocalStorage), course.lessonIds.Nodup →
      course.id ≠ "__proto__" →
      (∀ elems, ls ≠ some (StoredText.json (JSValue.arr elems))) →
      (getCourseState (completeCourse ls course) course.id).2
          = Value.json (CourseProgress.mk course.lessonIds true).toJS ∧
      ∃ m : Metrics,
        progressFor fl (completeCourse ls course) course = Except.ok m ∧
        m.total = course.lessons.length ∧ m.done = m.total ∧ m.isCompleted = true ∧
        (0 < m.total → m.p = JSNumber.fin 100)) ∧
    (∃ m1 m2 m3 : Metrics,
      progressFor fl (toggleLesson (toggleLesson none graphics "g-1" true) graphics "g-2" true)
          graphics = Except.ok m1 ∧
      m1.total = 4 ∧ m1.done = 2 ∧ m1.p = JSNumber.fin 50 ∧ m1.isCompleted = false ∧
      progressFor fl
          (completeCourse
            (toggleLesson (toggleLesson none graphics "g-1" true) graphics "g-2" true) graphics)
          graphics = Except.ok m2 ∧
      m2.total = 4 ∧ m2.done = 4 ∧ m2.p = JSNumber.fin 100 ∧ m2.isCompleted = true ∧
      (getCourseState
          (completeCourse
            (toggleLesson (toggleLesson none graphics "g-1" true) graphics "g-2" true) graphics)
          "graphics").2
        = Value.json (CourseProgress.mk ["g-1", "g-2", "g-3", "g-4"] true).toJS ∧
      progressFor fl
          (toggleLesson
            (completeCourse
              (toggleLesson (toggleLesson none graphics "g-1" true) graphics "g-2" true)
              graphics)
            graphics "g-1" false)
          graphics = Except.ok m3 ∧
      m3.total = 4 ∧ m3.done = 3 ∧ m3.p = JSNumber.fin 75 ∧ m3.isCompleted = true) := by
  constructor
  · intro course ls hnodup hid hls
    obtain ⟨props, hprops, hentry⟩ := completeCourse_table ls course hls hid
    have hstate : (getCourseState (completeCourse ls course) course.id).2
        = Value.json (CourseProgress.mk course.lessonIds true).toJS := by
      rw [hprops]
      exact getCourseState_own props course.id _ hentry rfl
    refine ⟨hstate, ?_⟩
    have hholds : Holds (getCourseState (completeCourse ls course) course.id).2
        ⟨course.lessonIds, true⟩ := by
      rw [hstate]
      exact holds_toJS _
    have hdone : (distinctIds course.lessonIds).length = course.lessons.length := by
      rw [distinctIds_of_nodup _ hnodup]
      simp [Course.lessonIds]
    refine ⟨_, progressFor_holds fl _ course _ hholds, rfl, hdone, rfl, ?_⟩
    intro hpos
    have hpos' : course.lessons.length > 0 := hpos
    have hne : ((course.lessons.length : ℕ) : ℚ) ≠ 0 := by
      exact_mod_cast Nat.pos_iff_ne_zero.1 hpos
    simp only [hdone, hpos', if_true]
    rw [div_self hne]
    exact percent_exact fl hfl 1 100 (binary64Exact_int 1 (by norm_num)) (by norm_num)
      (by norm_num) (le_refl _)
  · have hs1 : toggleLesson (toggleLesson none graphics "g-1" true) graphics "g-2" true
        = some (StoredText.json (JSValue.obj
            [("graphics", (CourseProgress.mk ["g-1", "g-2"] false).toJS)])) := by rfl
    have hs2 : completeCourse (some (StoredText.json (JSValue.obj
            [("graphics", (CourseProgress.mk ["g-1", "g-2"] false).toJS)]))) graphics
        = some (StoredText.json (JSValue.obj
            [("graphics", (CourseProgress.mk ["g-1", "g-2", "g-3", "g-4"] true).toJS)])) := by
      rfl
    have hs3 : toggleLesson (some (StoredText.json (JSValue.obj
            [("graphics", (CourseProgress.mk ["g-1", "g-2", "g-3", "g-4"] true).toJS)])))
          graphics "g-1" false
        = some (StoredText.json (JSValue.obj
            [("graphics", (CourseProgress.mk ["g-2", "g-3", "g-4"] true).toJS)])) := by rfl
    rw [hs1, hs2, hs3]
    have half : Binary64Exact (((2 : ℕ) : ℚ) / ((4 : ℕ) : ℚ)) :=
      ⟨1, 1, by norm_num, by norm_num, by norm_num⟩
    have one : Binary64Exact (((4 : ℕ) : ℚ) / ((4 : ℕ) : ℚ)) :=
      ⟨1, 0, by norm_num, by norm_num, by norm_num⟩
    have threeQuarters : Binary64Exact (((3 : ℕ) : ℚ) / ((4 : ℕ) : ℚ)) :=
      ⟨3, 2, by norm_num, by norm_num, by norm_num⟩
    refine ⟨_, _, _,
      progressFor_holds fl _ graphics ⟨["g-1", "g-2"], false⟩ (holds_toJS _), rfl, rfl, ?_, rfl,
      progressFor_holds fl _ graphics ⟨["g-1", "g-2", "g-3", "g-4"], true⟩ (holds_toJS _),
      rfl, rfl, ?_, rfl, rfl,
      progressFor_holds fl _ graphics ⟨["g-2", "g-3", "g-4"], true⟩ (holds_toJS _),
      rfl, rfl, ?_, rfl⟩
    · show percent (JSNumber.fin (fl (fl (((2 : ℕ) : ℚ) / ((4 : ℕ) : ℚ)) * 100))) = _
      exact percent_exact fl hfl _ 50 half (by norm_num) (by norm_num) (by norm_num)
    · show percent (JSNumber.fin (fl (fl (((4 : ℕ) : ℚ) / ((4 : ℕ) : ℚ)) * 100))) = _
      exact percent_exact fl hfl _ 100 one (by norm_num) (by norm_num) (by norm_num)
    · show percent (JSNumber.fin (fl (fl (((3 : ℕ) : ℚ) / ((4 : ℕ) : ℚ)) * 100))) = _
      exact percent_exact fl hfl _ 75 threeQuarters (by norm_num) (by norm_num) (by norm_num)

/-- Instance of `mark_course_complete`: exact arithmetic for `fl`, the course
`graphics`, an empty slot. -/
theorem mark_course_complete_witness :
    graphics.lessonIds.Nodup ∧
    (getCourseState (completeCourse none graphics) graphics.id).2
        = Value.json (CourseProgress.mk graphics.lessonIds true).toJS ∧
    ∃ m : Metrics,
      progressFor id (completeCourse none graphics) graphics = Except.ok m ∧
      m.total = graphics.lessons.length ∧ m.done = m.total ∧ m.isCompleted = true ∧
      (0 < m.total → m.p = JSNumber.fin 100) :=
  ⟨by decide,
   (mark_course_complete id (fun _ _ => rfl)).1 graphics none (by decide) (by decide)
     (fun _ h => Option.noConfusion h)⟩

/-! ## Claims on the router -/

theorem stripLiteral_append (lit rest : List Char) :
    stripLiteral lit (lit ++ rest) = some rest := by
  induction lit with
  | nil => rfl
  | cons l ls ih => simp [stripLiteral, ih]

theorem stripLiteral_some (lit cs rest : List Char) (h : stripLiteral lit cs = some rest) :
    cs = lit ++ rest := by
  induction lit generalizing cs with
  | nil =>
      simp only [stripLiteral] at h
      simpa using (Option.some.inj h)
  | cons l ls ih =>
      cases cs with
      | nil => simp [stripLiteral] at h
      | cons c cs' =>
          by_cases hlc : l = c
          · simp only [stripLiteral, hlc, if_true] at h
            rw [ih cs' h, hlc]
            rfl
          · simp [stripLiteral, hlc] at h

theorem courseSegment_course (seg : String) (hne : seg.toList ≠ [])
    (hslash : '/' ∉ seg.toList) : courseSegment ("/course/" ++ seg) = some seg := by
  have hall : (seg.toList.all fun c => decide (c ≠ '/')) = true := by
    rw [List.all_eq_true]
    intro c hc
    have : c ≠ '/' := fun h => hslash (h ▸ hc)
    simpa using this
  have hlist : ("/course/" ++ seg).toList = "/course/".toList ++ seg.toList := by
    simp [String.toList]
  unfold courseSegment
  rw [hlist, stripLiteral_append]
  simp only [hne, hall, ne_eq, not_false_eq_true, and_self, if_true]
  rfl

theorem courseSegment_none (path : String)
    (h : ∀ seg : String, seg.toList ≠ [] → '/' ∉ seg.toList → path ≠ "/course/" ++ seg) :
    courseSegment path = none := by
  unfold courseSegment
  cases hstrip : stripLiteral "/course/".toList path.toList with
  | none => rfl
  | some cs =>
      by_cases hcond : cs ≠ [] ∧ (cs.all fun c => decide (c ≠ '/')) = true
      · exfalso
        have hpath : path = "/course/" ++ String.mk cs := by
          apply String.ext
          have := stripLiteral_some _ _ _ hstrip
          simpa [String.toList] using this
        refine h (String.mk cs) hcond.1 ?_ hpath
        intro hmem
        have := (List.all_eq_true.1 hcond.2) '/' hmem
        simp at this
      · simp only [hcond, if_false]

/-- The three ordered rules of `matchRoute` wherever the segment can be decoded.  The
path `/` gives the home handler with no parameters; a path `/course/` followed by
one or more characters other than `/`, whose percent-decoding exists, gives the
course-detail handler with the decoded segment as `id`; every other path gives
the not-found handler with no parameters.  The three paths of the specification
are instances. -/
theorem matchRoute_rules :
    matchRoute "/" = Except.ok { handler := Handler.renderHome, params := [] } ∧
    (∀ seg id : String, seg.toList ≠ [] → '/' ∉ seg.toList →
      decodeURIComponent seg = Except.ok id →
      matchRoute ("/course/" ++ seg)
        = Except.ok { handler := Handler.renderCourseDetail, params := [("id", id)] }) ∧
    (∀ path : String, path ≠ "/" →
      (∀ seg : String, seg.toList ≠ [] → '/' ∉ seg.toList → path ≠ "/course/" ++ seg) →
      matchRoute path = Except.ok { handler := Handler.renderNotFound, params := [] }) ∧
    matchRoute "/course/graphics"
      = Except.ok { handler := Handler.renderCourseDetail, params := [("id", "graphics")] } ∧
    matchRoute "/course/data%2Danalytics"
      = Except.ok { handler := Handler.renderCourseDetail,
                    params := [("id", "data-analytics")] } ∧
    matchRoute "/bogus/path"
      = Except.ok { handler := Handler.renderNotFound, params := [] } := by
  refine ⟨rfl, ?_, ?_, rfl, rfl, rfl⟩
  · intro seg id hne hslash hdecode
    have hroot : "/course/" ++ seg ≠ "/" := by
      intro heq
      have hlen := congrArg (fun t : String => t.toList.length) heq
      simp [String.toList] at hlen
    unfold matchRoute
    rw [if_neg hroot, courseSegment_course seg hne hslash]
    simp only [hdecode]
  · intro path hroot hother
    unfold matchRoute
    rw [if_neg hroot, courseSegment_none path hother]

/-- Instance of `matchRoute_rules`: the segment `data%2Danalytics`. -/
theorem matchRoute_rules_witness :
    "data%2Danalytics".toList ≠ [] ∧ '/' ∉ "data%2Danalytics".toList ∧
    decodeURIComponent "data%2Danalytics" = Except.ok "data-analytics" ∧
    matchRoute ("/course/" ++ "data%2Danalytics")
      = Except.ok { handler := Handler.renderCourseDetail,
                    params := [("id", "data-analytics")] } :=
  ⟨by decide, by decide, rfl,
   matchRoute_rules.2.1 "data%2Danalytics" "data-analytics" (by decide) (by decide) rfl⟩

/-- `decodeURIComponent` on escapes of one to four octets, and on escapes that are
unfinished, not hexadecimal, or not well-formed UTF-8 (a lone continuation octet,
an overlong form, a surrogate, a code point above `U+10FFFF`, a wrong
continuation). -/
theorem decodeURIComponent_examples :
    decodeURIComponent "data%2Danalytics" = Except.ok "data-analytics" ∧
    decodeURIComponent "caf%C3%A9" = Except.ok "café" ∧
    decodeURIComponent "%E0%A4%85" = Except.ok "अ" ∧
    decodeURIComponent "%F0%9F%98%80" = Except.ok "😀" ∧
    decodeURIComponent "100%" = Except.error JSError.uriError ∧
    decodeURIComponent "%zz" = Except.error JSError.uriError ∧
    decodeURIComponent "%80" = Except.error JSError.uriError ∧
    decodeURIComponent "%C0%80" = Except.error JSError.uriError ∧
    decodeURIComponent "%ED%A0%80" = Except.error JSError.uriError ∧
    decodeURIComponent "%F4%90%80%80" = Except.error JSError.uriError ∧
    decodeURIComponent "%C3%28" = Except.error JSError.uriError ∧
    decodeURIComponent "%C3" = Except.error JSError.uriError := by
  repeat' constructor

/-- C6, at the failing input: the path `/course/100%` has the form of rule 2 (the
segment `100%` is not empty and holds no `/`, and the pattern captures it), yet
`matchRoute` gives no route match there: `decodeURIComponent` throws a `URIError`
on the unfinished escape and nothing catches it. -/
theorem matchRoute_rule_two_throws :
    "100%".toList ≠ [] ∧ '/' ∉ "100%".toList ∧
    courseSegment "/course/100%" = some "100%" ∧
    matchRoute "/course/100%" = Except.error JSError.uriError ∧
    ∀ m : RouteMatch, matchRoute "/course/100%" ≠ Except.ok m := by
  have hthrow : matchRoute "/course/100%" = Except.error JSError.uriError := by rfl
  refine ⟨by decide, by decide, by rfl, hthrow, ?_⟩
  intro m hm
  rw [hthrow] at hm
  cases hm

/-- C7, at the failing inputs: on `/course/%` and on `/course/%E0%A4` the call of
`decodeURIComponent` throws a `URIError`, which `matchRoute` does not catch, so no
route match is returned. -/
theorem matchRoute_throws :
    matchRoute "/course/%" = Except.error JSError.uriError ∧
    matchRoute "/course/%E0%A4" = Except.error JSError.uriError :=
  ⟨rfl, rfl⟩

end ELearn
